import Mathlib

/-!
Shallow embedding of the cleaning/merge engine and document-store adapter
of the bike-shop ETL pipeline (`cleaners.py`, `database.py`), together with
proofs of the specified properties.

Documents are modelled as association lists from field names to values,
collections as lists of documents, and the database as an association list
from collection names to collections.  MongoDB update primitives
(`update_many` with `$set`/`$unset`, value-equality and `$in` filters) are
modelled as pure functions over this representation.
-/

/-- A value stored in a document field: a string or an integer. -/
inductive Val where
  | vStr (s : String)
  | vInt (n : Int)
deriving DecidableEq, Repr

/-- A document: a finite mapping from field names to values, represented
as an association list (field order is significant, as in BSON). -/
abbrev Doc := List (String × Val)

/-- First value bound to a field, if present. -/
def getField (d : Doc) (f : String) : Option Val :=
  match d with
  | [] => none
  | (g, v) :: rest => if g = f then some v else getField rest f

/-- `$unset`: remove every binding of the field. -/
def unsetField (d : Doc) (f : String) : Doc :=
  d.filter (fun p => p.1 ≠ f)

/-- `$set`: replace the value of an existing field in place, or append the
field at the end when absent (MongoDB places new fields last). -/
def setField (d : Doc) (f : String) (v : Val) : Doc :=
  match d with
  | [] => [(f, v)]
  | (g, w) :: rest => if g = f then (f, v) :: rest else (g, w) :: setField rest f v

/-- A named collection of documents. -/
abbrev Collection := List Doc

/-- The database: named collections. -/
abbrev DB := List (String × Collection)

/-- Look a collection up by name; a missing collection reads as empty,
matching MongoDB's behaviour of treating absent collections as having
zero documents. -/
def getColl (db : DB) (c : String) : Collection :=
  match db with
  | [] => []
  | (n, docs) :: rest => if n = c then docs else getColl rest c

/-- Replace the contents of a named collection, leaving other collections
alone; a write to an absent collection leaves the database unchanged
(non-upsert `update_many` never creates a collection). -/
def mapColl (db : DB) (c : String) (f : Collection → Collection) : DB :=
  match db with
  | [] => []
  | (n, docs) :: rest =>
      if n = c then (n, f docs) :: rest else (n, docs) :: mapColl rest c f

/-- `collection.update_many(filter, update)`: apply `upd` to every document
matching `filt`, leaving the rest untouched. -/
def updateMany (db : DB) (c : String) (filt : Doc → Bool) (upd : Doc → Doc) : DB :=
  mapColl db c (fun docs => docs.map (fun d => if filt d then upd d else d))

/-- The filter `{field: {"$in": empty_values}}`: matches documents whose
field currently holds one of the given strings; absent fields (and
non-string values, since `empty_values` are strings) never match. -/
def dropEmptyMatches (f : String) (ev : List String) (d : Doc) : Bool :=
  match getField d f with
  | some (Val.vStr s) => s ∈ ev
  | _ => false

/-- `drop_empty` (`cleaners.py`): for each (collection, field) pair, run
`update_many({field: {"$in": empty_values}}, {"$unset": {field: ""}})`. -/
def drop_empty (db : DB) (collection_field_pairs : List (String × String))
    (empty_values : List String := ["NULL"]) : DB :=
  collection_field_pairs.foldl
    (fun db' p =>
      updateMany db' p.1 (dropEmptyMatches p.2 empty_values)
        (fun d => unsetField d p.2))
    db

/-- `drop_field` (`cleaners.py`): `update_many({}, {"$unset": {field: ""}})` —
unconditionally unset the field on every document of the collection. -/
def drop_field (db : DB) (collection : String) (field : String) : DB :=
  updateMany db collection (fun _ => true) (fun d => unsetField d field)

-- Basic field lemmas -------------------------------------------------------

theorem getField_unsetField_self (d : Doc) (f : String) :
    getField (unsetField d f) f = none := by
  induction d with
  | nil => rfl
  | cons p rest ih =>
      obtain ⟨k, v⟩ := p
      by_cases hk : k = f
      · simpa [unsetField, List.filter_cons, hk] using ih
      · simpa [unsetField, List.filter_cons, hk, getField] using ih

theorem getField_unsetField_other (d : Doc) (f g : String) (h : g ≠ f) :
    getField (unsetField d f) g = getField d g := by
  induction d with
  | nil => rfl
  | cons p rest ih =>
      obtain ⟨k, v⟩ := p
      by_cases hk : k = f
      · subst hk
        simpa [unsetField, List.filter_cons, getField, Ne.symm h] using ih
      · by_cases hkg : k = g
        · subst hkg
          simp [unsetField, List.filter_cons, hk, getField]
        · simpa [unsetField, List.filter_cons, hk, getField, hkg] using ih

theorem getField_setField_self (d : Doc) (f : String) (v : Val) :
    getField (setField d f v) f = some v := by
  induction d with
  | nil => simp [setField, getField]
  | cons p rest ih =>
      obtain ⟨k, w⟩ := p
      by_cases hk : k = f
      · simp [setField, hk, getField]
      · simp [setField, hk, getField, ih]

theorem getField_setField_other (d : Doc) (f g : String) (v : Val) (h : g ≠ f) :
    getField (setField d f v) g = getField d g := by
  induction d with
  | nil => simp [setField, getField, Ne.symm h]
  | cons p rest ih =>
      obtain ⟨k, w⟩ := p
      by_cases hk : k = f
      · subst hk
        simp [setField, getField, Ne.symm h, h]
      · by_cases hkg : k = g
        · subst hkg
          simp [setField, hk, getField]
        · simp [setField, hk, hkg, getField, ih]

theorem unsetField_idem (d : Doc) (f : String) :
    unsetField (unsetField d f) f = unsetField d f := by
  simp [unsetField, List.filter_filter]

-- Collection-level lemmas ---------------------------------------------------

theorem getColl_mapColl_self (db : DB) (c : String) (f : Collection → Collection)
    (hf : f [] = []) : getColl (mapColl db c f) c = f (getColl db c) := by
  induction db with
  | nil => simp [mapColl, getColl, hf]
  | cons p rest ih =>
      obtain ⟨n, docs⟩ := p
      by_cases hn : n = c
      · simp [mapColl, getColl, hn]
      · simp [mapColl, getColl, hn, ih]

theorem getColl_mapColl_other (db : DB) (c c' : String) (f : Collection → Collection)
    (h : c' ≠ c) : getColl (mapColl db c f) c' = getColl db c' := by
  induction db with
  | nil => simp [mapColl]
  | cons p rest ih =>
      obtain ⟨n, docs⟩ := p
      by_cases hn : n = c
      · subst hn
        simp [mapColl, getColl, Ne.symm h]
      · by_cases hn' : n = c'
        · subst hn'
          simp [mapColl, getColl, hn, h]
        · simp [mapColl, getColl, hn, hn', ih]

theorem getColl_updateMany_self (db : DB) (c : String)
    (filt : Doc → Bool) (upd : Doc → Doc) :
    getColl (updateMany db c filt upd) c =
      (getColl db c).map (fun d => if filt d then upd d else d) :=
  getColl_mapColl_self db c _ rfl

theorem getColl_updateMany_other (db : DB) (c c' : String)
    (filt : Doc → Bool) (upd : Doc → Doc) (h : c' ≠ c) :
    getColl (updateMany db c filt upd) c' = getColl db c' :=
  getColl_mapColl_other db c c' _ h

theorem mapColl_mapColl_self (db : DB) (c : String) (f g : Collection → Collection) :
    mapColl (mapColl db c f) c g = mapColl db c (g ∘ f) := by
  induction db with
  | nil => rfl
  | cons p rest ih =>
      obtain ⟨n, docs⟩ := p
      by_cases hn : n = c
      · simp [mapColl, hn]
      · simp [mapColl, hn, ih]

-- The per-document effect of one drop_empty update --------------------------

/-- The per-document transformation `drop_empty` applies for a single
(collection, field) pair. -/
def dropEmptyStep (f : String) (ev : List String) (d : Doc) : Doc :=
  if dropEmptyMatches f ev d then unsetField d f else d

theorem drop_empty_cons (db : DB) (c0 f0 : String) (rest : List (String × String))
    (ev : List String) :
    drop_empty db ((c0, f0) :: rest) ev =
      drop_empty (updateMany db c0 (dropEmptyMatches f0 ev) (fun d => unsetField d f0))
        rest ev := rfl

theorem getColl_drop_empty_notmem (db : DB) (pairs : List (String × String))
    (ev : List String) (c : String) (hc : c ∉ pairs.map Prod.fst) :
    getColl (drop_empty db pairs ev) c = getColl db c := by
  induction pairs generalizing db with
  | nil => rfl
  | cons p rest ih =>
      obtain ⟨c0, f0⟩ := p
      simp only [List.map_cons, List.mem_cons, not_or] at hc
      rw [drop_empty_cons, ih _ hc.2, getColl_updateMany_other _ _ _ _ _ hc.1]

theorem getColl_drop_empty_mem (db : DB) (pairs : List (String × String))
    (ev : List String) (c f : String)
    (hnd : (pairs.map Prod.fst).Nodup) (hcf : (c, f) ∈ pairs) :
    getColl (drop_empty db pairs ev) c = (getColl db c).map (dropEmptyStep f ev) := by
  induction pairs generalizing db with
  | nil => cases hcf
  | cons p rest ih =>
      obtain ⟨c0, f0⟩ := p
      simp only [List.map_cons, List.nodup_cons] at hnd
      rw [drop_empty_cons]
      rcases List.mem_cons.mp hcf with heq | hmem
      · injection heq with hc hf
        subst hc; subst hf
        rw [getColl_drop_empty_notmem _ _ _ _ hnd.1]
        exact getColl_updateMany_self db c _ _
      · have hc0 : c ≠ c0 := by
          intro h
          exact hnd.1 (h ▸ List.mem_map_of_mem Prod.fst hmem)
        rw [ih _ hnd.2 hmem, getColl_updateMany_other _ _ _ _ _ hc0]

/-- C3: for every (collection, field) pair of a `drop_empty` call (the pairs
come from a dict, so collections are distinct): documents whose field value
is one of the empty values lose the field; all other documents (including
those where the field is absent) are untouched; a pair naming a collection
absent from the database changes nothing; the default empty-value set is
the single string "NULL". -/
theorem drop_empty_correct (db : DB) (pairs : List (String × String))
    (ev : List String) (c f : String)
    (hnd : (pairs.map Prod.fst).Nodup) (hcf : (c, f) ∈ pairs) :
    List.Forall₂ (fun d d' =>
        ((∃ s, getField d f = some (Val.vStr s) ∧ s ∈ ev) → getField d' f = none) ∧
        ((∀ s, getField d f = some (Val.vStr s) → s ∉ ev) → d' = d))
      (getColl db c) (getColl (drop_empty db pairs ev) c) ∧
    (getColl db c = [] → getColl (drop_empty db pairs ev) c = []) ∧
    (∀ db2 pairs2, drop_empty db2 pairs2 = drop_empty db2 pairs2 ["NULL"]) := by
  rw [getColl_drop_empty_mem db pairs ev c f hnd hcf]
  refine ⟨?_, ?_, fun _ _ => rfl⟩
  · rw [List.forall₂_map_right_iff, List.forall₂_same]
    intro d _
    constructor
    · rintro ⟨s, hs, hmem⟩
      simp [dropEmptyStep, dropEmptyMatches, hs, hmem, getField_unsetField_self]
    · intro hnone
      unfold dropEmptyStep dropEmptyMatches
      cases hv : getField d f with
      | none => simp [hv]
      | some v =>
          cases v with
          | vStr s => simp [hv, hnone s hv]
          | vInt n => simp [hv]
  · intro h
    simp [h]

/-- Concrete instantiation of `drop_empty_correct`: a two-collection
database run through a one-pair call with the default empty set. -/
theorem drop_empty_correct_witness :
    (([("customers", "phone")].map (Prod.fst : String × String → String)).Nodup ∧
      ("customers", "phone") ∈ [("customers", "phone")]) ∧
    (List.Forall₂ (fun d d' =>
        ((∃ s, getField d "phone" = some (Val.vStr s) ∧ s ∈ ["NULL"]) →
          getField d' "phone" = none) ∧
        ((∀ s, getField d "phone" = some (Val.vStr s) → s ∉ ["NULL"]) → d' = d))
      (getColl [("customers",
          [[("phone", Val.vStr "NULL")], [("phone", Val.vStr "555")], []])] "customers")
      (getColl (drop_empty [("customers",
          [[("phone", Val.vStr "NULL")], [("phone", Val.vStr "555")], []])]
          [("customers", "phone")] ["NULL"]) "customers") ∧
    (getColl [("customers",
          [[("phone", Val.vStr "NULL")], [("phone", Val.vStr "555")], []])] "customers" = [] →
      getColl (drop_empty [("customers",
          [[("phone", Val.vStr "NULL")], [("phone", Val.vStr "555")], []])]
          [("customers", "phone")] ["NULL"]) "customers" = []) ∧
    (∀ db2 pairs2, drop_empty db2 pairs2 = drop_empty db2 pairs2 ["NULL"])) :=
  ⟨⟨by decide, by decide⟩,
   drop_empty_correct [("customers",
      [[("phone", Val.vStr "NULL")], [("phone", Val.vStr "555")], []])]
      [("customers", "phone")] ["NULL"] "customers" "phone"
      (by decide) (by decide)⟩

/-- C6: `drop_field` unsets the field on every document of the collection
unconditionally — afterwards no document in the collection has the field —
and the operation is idempotent: a second identical call changes nothing. -/
theorem drop_field_correct (db : DB) (c f : String) :
    getColl (drop_field db c f) c = (getColl db c).map (fun d => unsetField d f) ∧
    (∀ d ∈ getColl (drop_field db c f) c, getField d f = none) ∧
    drop_field (drop_field db c f) c f = drop_field db c f := by
  have hmap : getColl (drop_field db c f) c = (getColl db c).map (fun d => unsetField d f) := by
    rw [drop_field, getColl_updateMany_self]
    simp
  refine ⟨hmap, ?_, ?_⟩
  · intro d hd
    rw [hmap] at hd
    obtain ⟨d0, _, rfl⟩ := List.mem_map.mp hd
    exact getField_unsetField_self d0 f
  · rw [drop_field, drop_field, updateMany, updateMany, mapColl_mapColl_self]
    congr 1
    funext docs
    simp [Function.comp_def, unsetField_idem]

-- merge_collection ----------------------------------------------------------

/-- The `target` argument of `merge_collection`: a dict with keys
"collection" and "bridge_field". -/
structure MergeTarget where
  collection : String
  bridge_field : String

/-- The `source` argument of `merge_collection`: a dict with keys
"collection", "bridge_field" and "source_field". -/
structure MergeSource where
  collection : String
  bridge_field : String
  source_field : String

/-- Rebinding of one entry of the transient mapping. -/
def replacePair (k v : Val) : Val × Val → Val × Val
  | (k0, v0) => if k0 = k then (k, v) else (k0, v0)

/-- Python dict insertion (`mappings[k] = v`): replace the value in place
when the key is already bound, append the pair otherwise. -/
def dictInsert (m : List (Val × Val)) (k v : Val) : List (Val × Val) :=
  if m.any (fun p => p.1 = k) then m.map (replacePair k v)
  else m ++ [(k, v)]

/-- Lookup in the transient mapping (first binding of the key). -/
def lookupVal (m : List (Val × Val)) (k : Val) : Option Val :=
  match m with
  | [] => none
  | (k0, v0) :: rest => if k0 = k then some v0 else lookupVal rest k

/-- The mapping-building loop of `merge_collection`: scan the documents of
the source collection and record `mappings[doc[bridge_field]] =
doc[source_field]`.  Reading a missing field is a Python `KeyError`,
modelled as `none`. -/
def buildMappings (docs : Collection) (bridge_field source_field : String)
    (m : List (Val × Val)) : Option (List (Val × Val)) :=
  match docs with
  | [] => some m
  | d :: rest =>
      match getField d bridge_field, getField d source_field with
      | some k, some v => buildMappings rest bridge_field source_field (dictInsert m k v)
      | _, _ => none

/-- The filter `{target_bridge_field: bridge}` of the update loop. -/
def mergeFilter (tb : String) (k : Val) (d : Doc) : Bool :=
  decide (getField d tb = some k)

/-- The update `{"$set": {source_field: v}, "$unset": {target_bridge_field: ""}}`
(the two operators touch distinct fields in every call of the pipeline;
MongoDB rejects the update when they collide). -/
def mergeUpdate (sf : String) (v : Val) (tb : String) (d : Doc) : Doc :=
  unsetField (setField d sf v) tb

/-- `merge_collection` (`cleaners.py`): build the bridge mapping from the
source collection, then for each (bridge, value) pair update every target
document whose bridge field equals the bridge.  `none` models the
`KeyError` raised when a source document lacks one of the scanned fields. -/
def merge_collection (db : DB) (target : MergeTarget) (source : MergeSource) :
    Option DB :=
  match buildMappings (getColl db source.collection)
      source.bridge_field source.source_field [] with
  | none => none
  | some mappings =>
      some (mappings.foldl
        (fun db' p =>
          updateMany db' target.collection
            (mergeFilter target.bridge_field p.1)
            (mergeUpdate source.source_field p.2 target.bridge_field))
        db)

-- dictInsert / lookupVal lemmas --------------------------------------------

theorem lookupVal_of_any_false (m : List (Val × Val)) (k : Val)
    (h : m.any (fun p => decide (p.1 = k)) = false) : lookupVal m k = none := by
  induction m with
  | nil => rfl
  | cons p rest ih =>
      obtain ⟨k0, v0⟩ := p
      simp only [List.any_cons, Bool.or_eq_false_iff, decide_eq_false_iff_not] at h
      simp [lookupVal, h.1, ih h.2]

theorem lookupVal_map_replace_self (m : List (Val × Val)) (k v : Val)
    (h : m.any (fun p => decide (p.1 = k)) = true) :
    lookupVal (m.map (replacePair k v)) k = some v := by
  induction m with
  | nil => cases h
  | cons p rest ih =>
      obtain ⟨k0, v0⟩ := p
      rw [List.map_cons]
      by_cases hk : k0 = k
      · rw [show replacePair k v (k0, v0) = (k, v) by simp [replacePair, hk]]
        simp [lookupVal]
      · rw [show replacePair k v (k0, v0) = (k0, v0) by simp [replacePair, hk]]
        have h' : rest.any (fun p => decide (p.1 = k)) = true := by
          simp only [List.any_cons, Bool.or_eq_true, decide_eq_true_eq] at h
          rcases h with h | h
          · exact absurd h hk
          · simpa using h
        simp [lookupVal, hk, ih h']

theorem lookupVal_map_replace_other (m : List (Val × Val)) (k v k' : Val)
    (h : k' ≠ k) :
    lookupVal (m.map (replacePair k v)) k' = lookupVal m k' := by
  induction m with
  | nil => rfl
  | cons p rest ih =>
      obtain ⟨k0, v0⟩ := p
      rw [List.map_cons]
      by_cases hk : k0 = k
      · subst hk
        rw [show replacePair k0 v (k0, v0) = (k0, v) by simp [replacePair]]
        simp [lookupVal, Ne.symm h, ih]
      · rw [show replacePair k v (k0, v0) = (k0, v0) by simp [replacePair, hk]]
        simp [lookupVal, ih]

theorem lookupVal_append_single_self (m : List (Val × Val)) (k v : Val)
    (h : lookupVal m k = none) : lookupVal (m ++ [(k, v)]) k = some v := by
  induction m with
  | nil => simp [lookupVal]
  | cons p rest ih =>
      obtain ⟨k0, v0⟩ := p
      by_cases hk : k0 = k
      · simp [lookupVal, hk] at h
      · simp only [lookupVal, hk] at h
        simp [lookupVal, hk, ih h]

theorem lookupVal_append_single_other (m : List (Val × Val)) (k v k' : Val)
    (h : k' ≠ k) : lookupVal (m ++ [(k, v)]) k' = lookupVal m k' := by
  induction m with
  | nil => simp [lookupVal, Ne.symm h]
  | cons p rest ih =>
      obtain ⟨k0, v0⟩ := p
      by_cases hk : k0 = k'
      · simp [lookupVal, hk]
      · simp [lookupVal, hk, ih]

theorem lookupVal_dictInsert_self (m : List (Val × Val)) (k v : Val) :
    lookupVal (dictInsert m k v) k = some v := by
  unfold dictInsert
  cases h : m.any (fun p => decide (p.1 = k)) with
  | true => simpa [h] using lookupVal_map_replace_self m k v h
  | false => simpa [h] using lookupVal_append_single_self m k v (lookupVal_of_any_false m k h)

theorem lookupVal_dictInsert_other (m : List (Val × Val)) (k v k' : Val)
    (h : k' ≠ k) : lookupVal (dictInsert m k v) k' = lookupVal m k' := by
  unfold dictInsert
  cases hany : m.any (fun p => decide (p.1 = k)) with
  | true => simpa [hany] using lookupVal_map_replace_other m k v k' h
  | false => simpa [hany] using lookupVal_append_single_other m k v k' h

-- The update loop of merge_collection, viewed per document ------------------

/-- Cumulative effect of the merge update loop on a single target document. -/
def applyMerge (tb sf : String) (m : List (Val × Val)) (d : Doc) : Doc :=
  m.foldl (fun d' p => if mergeFilter tb p.1 d' then mergeUpdate sf p.2 tb d' else d') d

theorem getColl_merge_fold (m : List (Val × Val)) (db : DB) (tc tb sf : String) :
    getColl (m.foldl
        (fun db' p => updateMany db' tc (mergeFilter tb p.1) (mergeUpdate sf p.2 tb)) db) tc
      = (getColl db tc).map (applyMerge tb sf m) := by
  induction m generalizing db with
  | nil =>
      rw [List.foldl_nil, show applyMerge tb sf [] = fun d => d from rfl]
      simp
  | cons p rest ih =>
      rw [List.foldl_cons, ih, getColl_updateMany_self, List.map_map]
      apply List.map_congr_left
      intro d _
      simp [Function.comp, applyMerge]

theorem applyMerge_no_bridge (tb sf : String) (m : List (Val × Val)) (d : Doc)
    (h : getField d tb = none) : applyMerge tb sf m d = d := by
  induction m with
  | nil => rfl
  | cons p rest ih =>
      rw [applyMerge, List.foldl_cons]
      rw [show mergeFilter tb p.1 d = false by simp [mergeFilter, h]]
      simpa [applyMerge] using ih

theorem applyMerge_not_key (tb sf : String) (m : List (Val × Val)) (d : Doc) (k : Val)
    (h : getField d tb = some k) (hk : lookupVal m k = none) :
    applyMerge tb sf m d = d := by
  induction m with
  | nil => rfl
  | cons p rest ih =>
      obtain ⟨k0, v0⟩ := p
      have hk0 : k0 ≠ k := by
        intro he
        simp [lookupVal, he] at hk
      rw [applyMerge, List.foldl_cons]
      rw [show mergeFilter tb k0 d = false by
        simp [mergeFilter, h]
        exact fun he => absurd he.symm hk0]
      have hrest : lookupVal rest k = none := by
        simpa [lookupVal, hk0] using hk
      simpa [applyMerge] using ih hrest

theorem applyMerge_key (tb sf : String) (m : List (Val × Val)) (d : Doc) (k w : Val)
    (hne : sf ≠ tb) (h : getField d tb = some k) (hk : lookupVal m k = some w) :
    getField (applyMerge tb sf m d) sf = some w ∧
      getField (applyMerge tb sf m d) tb = none := by
  induction m generalizing d with
  | nil => cases hk
  | cons p rest ih =>
      obtain ⟨k0, v0⟩ := p
      by_cases hk0 : k0 = k
      · subst hk0
        have hw : v0 = w := by simpa [lookupVal] using hk
        have hbridge : getField (mergeUpdate sf v0 tb d) tb = none :=
          getField_unsetField_self _ tb
        have hrest : applyMerge tb sf rest (mergeUpdate sf v0 tb d) =
            mergeUpdate sf v0 tb d := applyMerge_no_bridge tb sf rest _ hbridge
        have hgoal : applyMerge tb sf ((k0, v0) :: rest) d = mergeUpdate sf v0 tb d := by
          rw [applyMerge, List.foldl_cons]
          have hfilt : mergeFilter tb (k0, v0).1 d = true := by simp [mergeFilter, h]
          rw [hfilt, if_pos rfl]
          exact hrest
        rw [hgoal]
        refine ⟨?_, hbridge⟩
        rw [mergeUpdate, getField_unsetField_other _ _ _ hne, getField_setField_self, hw]
      · have hrest : lookupVal rest k = some w := by
          simpa [lookupVal, hk0] using hk
        rw [applyMerge, List.foldl_cons]
        rw [show mergeFilter tb k0 d = false by
          simp [mergeFilter, h]
          exact fun he => absurd he.symm hk0]
        exact ih d h hrest

/-- C1: for every `merge_collection` call that completes (every source
document carries both scanned fields, so building the mapping does not
raise, and the set/unset fields are distinct, so MongoDB accepts the
update): a target document whose bridge value is a key of the computed
bridge mapping ends with `source_field` equal to the mapped value and
without the bridge field; a target document whose bridge value is not a
key of the mapping — or which lacks the bridge field — is unchanged. -/
theorem merge_collection_correct (db : DB) (target : MergeTarget) (source : MergeSource)
    (m : List (Val × Val))
    (hm : buildMappings (getColl db source.collection)
        source.bridge_field source.source_field [] = some m)
    (hne : source.source_field ≠ target.bridge_field) :
    ∃ db', merge_collection db target source = some db' ∧
      List.Forall₂ (fun d d' =>
          (∀ k w, getField d target.bridge_field = some k → lookupVal m k = some w →
            getField d' source.source_field = some w ∧
              getField d' target.bridge_field = none) ∧
          (∀ k, getField d target.bridge_field = some k → lookupVal m k = none → d' = d) ∧
          (getField d target.bridge_field = none → d' = d))
        (getColl db target.collection)
        (getColl db' target.collection) := by
  refine ⟨_, by rw [merge_collection, hm], ?_⟩
  rw [getColl_merge_fold]
  rw [List.forall₂_map_right_iff, List.forall₂_same]
  intro d _
  refine ⟨?_, ?_, ?_⟩
  · intro k w hd hk
    exact applyMerge_key _ _ m d k w hne hd hk
  · intro k hd hk
    exact applyMerge_not_key _ _ m d k hd hk
  · intro hd
    exact applyMerge_no_bridge _ _ m d hd

/-- Concrete instantiation of `merge_collection_correct`: merging brand
names into a two-document products collection, where one product has a
mapped brand id and the other an unmapped one. -/
theorem merge_collection_correct_witness :
    (buildMappings
        (getColl [("products",
            [[("brand_id", Val.vInt 1), ("product_name", Val.vStr "X")],
             [("brand_id", Val.vInt 9)]]),
          ("brands", [[("brand_id", Val.vInt 1), ("brand_name", Val.vStr "Trek")]])]
          "brands") "brand_id" "brand_name" [] = some [(Val.vInt 1, Val.vStr "Trek")] ∧
      ("brand_name" : String) ≠ "brand_id") ∧
    (∃ db', merge_collection
        [("products",
            [[("brand_id", Val.vInt 1), ("product_name", Val.vStr "X")],
             [("brand_id", Val.vInt 9)]]),
          ("brands", [[("brand_id", Val.vInt 1), ("brand_name", Val.vStr "Trek")]])]
        ⟨"products", "brand_id"⟩ ⟨"brands", "brand_id", "brand_name"⟩ = some db' ∧
      List.Forall₂ (fun d d' =>
          (∀ k w, getField d "brand_id" = some k →
            lookupVal [(Val.vInt 1, Val.vStr "Trek")] k = some w →
            getField d' "brand_name" = some w ∧ getField d' "brand_id" = none) ∧
          (∀ k, getField d "brand_id" = some k →
            lookupVal [(Val.vInt 1, Val.vStr "Trek")] k = none → d' = d) ∧
          (getField d "brand_id" = none → d' = d))
        (getColl [("products",
            [[("brand_id", Val.vInt 1), ("product_name", Val.vStr "X")],
             [("brand_id", Val.vInt 9)]]),
          ("brands", [[("brand_id", Val.vInt 1), ("brand_name", Val.vStr "Trek")]])]
          "products")
        (getColl db' "products")) :=
  ⟨⟨by decide, by decide⟩,
   merge_collection_correct
     [("products",
         [[("brand_id", Val.vInt 1), ("product_name", Val.vStr "X")],
          [("brand_id", Val.vInt 9)]]),
       ("brands", [[("brand_id", Val.vInt 1), ("brand_name", Val.vStr "Trek")]])]
     ⟨"products", "brand_id"⟩ ⟨"brands", "brand_id", "brand_name"⟩
     [(Val.vInt 1, Val.vStr "Trek")] (by decide) (by decide)⟩

-- Last-write-wins on the transient bridge mapping (C4) ----------------------

theorem find?_append_of_some {α : Type} (l1 l2 : List α) (p : α → Bool) (a : α)
    (h : l1.find? p = some a) : (l1 ++ l2).find? p = some a := by
  induction l1 with
  | nil => cases h
  | cons x rest ih =>
      cases hx : p x with
      | true =>
          rw [List.find?_cons_of_pos _ hx] at h
          rw [List.cons_append, List.find?_cons_of_pos _ hx]
          exact h
      | false =>
          rw [List.find?_cons_of_neg _ (by simp [hx])] at h
          rw [List.cons_append, List.find?_cons_of_neg _ (by simp [hx])]
          exact ih h

theorem find?_append_of_none {α : Type} (l1 l2 : List α) (p : α → Bool)
    (h : l1.find? p = none) : (l1 ++ l2).find? p = l2.find? p := by
  induction l1 with
  | nil => rfl
  | cons x rest ih =>
      cases hx : p x with
      | true => rw [List.find?_cons_of_pos _ hx] at h; cases h
      | false =>
          rw [List.find?_cons_of_neg _ (by simp [hx])] at h
          rw [List.cons_append, List.find?_cons_of_neg _ (by simp [hx])]
          exact ih h

/-- The value the finished transient mapping binds to a key is the
source-field value of the last-seen source document whose bridge field
held that key (Python dict assignment overwrites). -/
theorem lookupVal_buildMappings (docs : Collection) (bf sf : String)
    (m0 m : List (Val × Val)) (k : Val)
    (hm : buildMappings docs bf sf m0 = some m) :
    lookupVal m k =
      match docs.reverse.find? (fun d => decide (getField d bf = some k)) with
      | some d => getField d sf
      | none => lookupVal m0 k := by
  induction docs generalizing m0 with
  | nil =>
      simp only [buildMappings, Option.some.injEq] at hm
      subst hm
      rfl
  | cons d0 rest ih =>
      rw [buildMappings] at hm
      cases hb : getField d0 bf with
      | none => rw [hb] at hm; cases hm
      | some k0 =>
          cases hs : getField d0 sf with
          | none => rw [hb, hs] at hm; cases hm
          | some v0 =>
              rw [hb, hs] at hm
              have hrec := ih (dictInsert m0 k0 v0) hm
              rw [List.reverse_cons]
              cases hfind : rest.reverse.find? (fun d => decide (getField d bf = some k)) with
              | some dlast =>
                  rw [find?_append_of_some _ _ _ _ hfind]
                  rw [hrec, hfind]
              | none =>
                  rw [find?_append_of_none _ _ _ hfind]
                  rw [hrec, hfind]
                  by_cases hkk : k0 = k
                  · subst hkk
                    rw [List.find?_cons_of_pos _ (by simp [hb])]
                    simp [hs, lookupVal_dictInsert_self]
                  · rw [List.find?_cons_of_neg _ (by simp [hb, hkk])]
                    simp [lookupVal_dictInsert_other m0 k0 v0 k (Ne.symm hkk)]

/-- C4: when two or more source documents share the same bridge value, the
transient mapping binds that bridge value to the source-field value of the
last-seen such document, so an earlier document's differing source-field
value is not what the mapping yields for that bridge value. -/
theorem merge_mapping_last_write_wins (docs : Collection) (bf sf : String)
    (m : List (Val × Val)) (hm : buildMappings docs bf sf [] = some m)
    (k : Val) (i j : Nat) (hij : i < j) (hj : j < docs.length)
    (_hi : getField (docs.get ⟨i, lt_trans hij hj⟩) bf = some k)
    (hjb : getField (docs.get ⟨j, hj⟩) bf = some k) :
    ∃ dlast, docs.reverse.find? (fun d => decide (getField d bf = some k)) = some dlast ∧
      lookupVal m k = getField dlast sf ∧
      (∀ v, getField (docs.get ⟨i, lt_trans hij hj⟩) sf = some v →
        getField dlast sf ≠ some v → lookupVal m k ≠ some v) := by
  have hmem : docs.get ⟨j, hj⟩ ∈ docs.reverse := by
    rw [List.mem_reverse]
    exact docs.get_mem j hj
  have hsome : (docs.reverse.find? (fun d => decide (getField d bf = some k))).isSome := by
    rw [List.find?_isSome]
    exact ⟨docs.get ⟨j, hj⟩, hmem, by simpa using hjb⟩
  obtain ⟨dlast, hfind⟩ := Option.isSome_iff_exists.mp hsome
  have hbind : lookupVal m k = getField dlast sf := by
    rw [lookupVal_buildMappings docs bf sf [] m k hm, hfind]
  exact ⟨dlast, hfind, hbind, fun v _ hne hcontra => hne (hbind ▸ hcontra)⟩

/-- Concrete instantiation of `merge_mapping_last_write_wins`: two staff
documents share the bridge value "Anna"; the mapping keeps the second
document's source value. -/
theorem merge_mapping_last_write_wins_witness :
    (buildMappings
        [[("name", Val.vStr "Anna"), ("staff_id", Val.vInt 1)],
         [("name", Val.vStr "Anna"), ("staff_id", Val.vInt 2)]]
        "name" "staff_id" [] = some [(Val.vStr "Anna", Val.vInt 2)] ∧
      (0 : Nat) < 1 ∧ (1 : Nat) < 2 ∧
      getField [("name", Val.vStr "Anna"), ("staff_id", Val.vInt 1)] "name" =
        some (Val.vStr "Anna")) ∧
    (∃ dlast,
      ([[("name", Val.vStr "Anna"), ("staff_id", Val.vInt 1)],
        [("name", Val.vStr "Anna"), ("staff_id", Val.vInt 2)]] :
          Collection).reverse.find?
          (fun d => decide (getField d "name" = some (Val.vStr "Anna"))) = some dlast ∧
      lookupVal [(Val.vStr "Anna", Val.vInt 2)] (Val.vStr "Anna") =
        getField dlast "staff_id" ∧
      (∀ v, getField (([[("name", Val.vStr "Anna"), ("staff_id", Val.vInt 1)],
          [("name", Val.vStr "Anna"), ("staff_id", Val.vInt 2)]] :
            Collection).get ⟨0, by decide⟩) "staff_id" = some v →
        getField dlast "staff_id" ≠ some v →
        lookupVal [(Val.vStr "Anna", Val.vInt 2)] (Val.vStr "Anna") ≠ some v)) :=
  ⟨⟨by decide, by decide, by decide, by decide⟩,
   merge_mapping_last_write_wins
     [[("name", Val.vStr "Anna"), ("staff_id", Val.vInt 1)],
      [("name", Val.vStr "Anna"), ("staff_id", Val.vInt 2)]]
     "name" "staff_id" [(Val.vStr "Anna", Val.vInt 2)] (by decide)
     (Val.vStr "Anna") 0 1 (by decide) (by decide) (by decide) (by decide)⟩

-- Tabular (dataframe) operations --------------------------------------------

/-!
A polars `DataFrame` is modelled as a list of rows, each a `Doc` (ordered
columns).  Column expressions that require a string-typed column raise in
polars when the column is missing or non-string; this is modelled by the
per-row functions returning `none`, and a table operation failing on any
row fails as a whole (`mapRows`).
-/

/-- Strip leading and trailing whitespace (`str.strip_chars()` with its
default character set), written over the character list so that it
evaluates structurally. -/
def strTrim (s : String) : String :=
  ⟨((s.data.dropWhile Char.isWhitespace).reverse.dropWhile Char.isWhitespace).reverse⟩

/-- `str.strip_prefix(prefix)`: remove the prefix when the string starts
with it, otherwise return the string unchanged. -/
def strDropPrefix (p s : String) : String :=
  if p.data.isPrefixOf s.data then ⟨s.data.drop p.data.length⟩ else s

/-- Splitting loop for `str.split(by)` over character lists; `fuel` is an
upper bound on the number of characters left (the recursion consumes at
least one character per step). -/
def splitOnAuxC (sep : List Char) : Nat → List Char → List Char → List (List Char)
  | _, [], acc => [acc.reverse]
  | 0, _, acc => [acc.reverse]
  | fuel + 1, c :: rest, acc =>
      if sep.isPrefixOf (c :: rest) then
        acc.reverse :: splitOnAuxC sep fuel (List.drop sep.length (c :: rest)) []
      else
        splitOnAuxC sep fuel rest (c :: acc)

/-- `str.split(by)`: split on every occurrence of the delimiter, keeping
empty segments; a delimiter-free string yields the single segment `[s]`. -/
def strSplitOn (s sep : String) : List String :=
  if sep.data = [] then [s]
  else (splitOnAuxC sep.data s.data.length s.data []).map (fun cs => ⟨cs⟩)

/-- Apply a per-row transformation to every row; any per-row failure fails
the whole operation, as a raising polars expression does. -/
def mapRows (f : Doc → Option Doc) : List Doc → Option (List Doc)
  | [] => some []
  | r :: rest =>
      match f r, mapRows f rest with
      | some r', some rest' => some (r' :: rest')
      | _, _ => none

/-- `pl.col(field).str.strip_chars()` on one row: strip surrounding
whitespace from the row's string value. -/
def trimWhitespaceRow (field : String) (r : Doc) : Option Doc :=
  match getField r field with
  | some (Val.vStr s) => some (setField r field (Val.vStr (strTrim s)))
  | _ => none

/-- `trim_whitespace` (`cleaners.py`):
`dataframe.with_columns(pl.col(field).str.strip_chars())`. -/
def trim_whitespace (df : List Doc) (field : String) : Option (List Doc) :=
  mapRows (trimWhitespaceRow field) df

/-- `pl.col(field).str.strip_prefix(pl.col(prefix_field))` on one row:
remove the row's prefix value from the front of the field value when it is
a prefix, otherwise leave the value unchanged. -/
def trimPrefixRow (field prefix_field : String) (r : Doc) : Option Doc :=
  match getField r field, getField r prefix_field with
  | some (Val.vStr s), some (Val.vStr p) =>
      some (setField r field (Val.vStr (strDropPrefix p s)))
  | _, _ => none

/-- `trim_prefix` (`cleaners.py`): strip the per-row prefix, then
optionally trim whitespace from the field. -/
def trim_prefix (df : List Doc) (field prefix_field : String)
    (post_trim_whitespace : Bool := true) : Option (List Doc) :=
  match mapRows (trimPrefixRow field prefix_field) df with
  | some df1 =>
      if post_trim_whitespace then trim_whitespace df1 field else some df1
  | none => none

/-- `list.shift()` on a list value: every element moves one slot later, a
null enters at the front, the last element falls off. -/
def listShift (l : List (Option String)) : List (Option String) :=
  none :: l.dropLast

/-- `list.join(delimiter)` with its default `ignore_nulls=True`:
concatenate the non-null elements with the delimiter. -/
def listJoin (delim : String) (l : List (Option String)) : String :=
  String.intercalate delim (l.filterMap id)

/-- `.cast({suffix_field: pl.String})` on one value (an integer renders in
decimal, a string is unchanged). -/
def castString (v : Val) : Val :=
  match v with
  | Val.vStr s => Val.vStr s
  | Val.vInt n => Val.vStr (toString n)

/-- `replace_with_suffix` (`cleaners.py`) on one row: split the field value
on every occurrence of the delimiter into the temporary list column, cast
the suffix column to string, then replace the field by the shifted list
joined with the delimiter and the suffix by the last list element; the
temporary column is dropped again (no net effect on the row).  `none`
models the polars errors for a missing/non-string field column, a missing
suffix column, or an empty split list. -/
def replaceWithSuffixRow (field suffix_field delim : String) (r : Doc) :
    Option Doc :=
  match getField r field, getField r suffix_field with
  | some (Val.vStr s), some sv =>
      let parts := strSplitOn s delim
      let r1 := setField r suffix_field (castString sv)
      let newField := listJoin delim (listShift (parts.map some))
      match parts.getLast? with
      | some suf =>
          some (setField (setField r1 field (Val.vStr newField))
            suffix_field (Val.vStr suf))
      | none => none
  | _, _ => none

/-- `replace_with_suffix` (`cleaners.py`): per-row split/shift/join/last,
then optionally trim whitespace from the field and from the suffix field. -/
def replace_with_suffix (df : List Doc) (field suffix_field delim : String)
    (post_trim_whitespace : Bool := true) : Option (List Doc) :=
  match mapRows (replaceWithSuffixRow field suffix_field delim) df with
  | some df1 =>
      if post_trim_whitespace then
        match trim_whitespace df1 field with
        | some df2 => trim_whitespace df2 suffix_field
        | none => none
      else some df1
  | none => none

/-- `add_id` (`cleaners.py`): `dataframe.with_row_index(id_name)` — insert
an integer index column, counting rows from zero, as the first column. -/
def add_id (df : List Doc) (id_name : String) : List Doc :=
  df.mapIdx (fun i r => (id_name, Val.vInt i) :: r)

-- mapRows lemmas ------------------------------------------------------------

theorem mapRows_forall2 (f : Doc → Option Doc) (df df' : List Doc)
    (h : mapRows f df = some df') :
    List.Forall₂ (fun r r' => f r = some r') df df' := by
  induction df generalizing df' with
  | nil =>
      simp only [mapRows, Option.some.injEq] at h
      subst h
      exact List.Forall₂.nil
  | cons r rest ih =>
      rw [mapRows] at h
      cases hr : f r with
      | none => rw [hr] at h; cases h
      | some r1 =>
          cases hrest : mapRows f rest with
          | none => rw [hr, hrest] at h; cases h
          | some rest1 =>
              rw [hr, hrest] at h
              simp only [Option.some.injEq] at h
              subst h
              exact List.Forall₂.cons hr (ih rest1 hrest)

theorem mapRows_mapRows (f g : Doc → Option Doc) (df : List Doc) :
    (mapRows f df).bind (mapRows g) = mapRows (fun r => (f r).bind g) df := by
  induction df with
  | nil => rfl
  | cons r rest ih =>
      rw [mapRows, mapRows]
      cases hr : f r with
      | none =>
          cases hrest : mapRows f rest with
          | none => rfl
          | some rest1 => rfl
      | some r1 =>
          cases hrest : mapRows f rest with
          | none =>
              rw [← ih, hrest]
              simp only [Option.some_bind, Option.none_bind]
              cases hg : g r1 <;> rfl
          | some rest1 =>
              rw [← ih, hrest]
              simp only [Option.some_bind]
              rfl


-- String helper lemmas ------------------------------------------------------

theorem strDropPrefix_append (p t : String) : strDropPrefix p (p ++ t) = t := by
  rw [strDropPrefix]
  rw [show (p ++ t).data = p.data ++ t.data from rfl]
  rw [if_pos (List.isPrefixOf_iff_prefix.mpr (List.prefix_append p.data t.data))]
  rw [List.drop_left]

theorem strDropPrefix_of_no_prefix (p s : String) (h : ∀ t, s ≠ p ++ t) :
    strDropPrefix p s = s := by
  rw [strDropPrefix]
  rw [if_neg]
  intro hp
  rw [List.isPrefixOf_iff_prefix] at hp
  obtain ⟨u, hu⟩ := hp
  exact h ⟨u⟩ (String.ext hu.symm)

theorem setField_setField (r : Doc) (f : String) (v w : Val) :
    setField (setField r f v) f w = setField r f w := by
  induction r with
  | nil => simp [setField]
  | cons p rest ih =>
      obtain ⟨k, u⟩ := p
      by_cases hk : k = f
      · simp [setField, hk]
      · simp [setField, hk, ih]

theorem optionMatchBind {α β : Type} (x : Option α) (g : α → Option β) :
    (match x with | some a => g a | none => none) = x.bind g := by
  cases x <;> rfl

/-- Trimming applied after an operation when `post_trim_whitespace` is set. -/
def applyPostTrim (post : Bool) (s : String) : String :=
  if post then strTrim s else s

theorem trim_prefix_eq (df : List Doc) (field prefix_field : String) (post : Bool) :
    trim_prefix df field prefix_field post =
      mapRows (fun r => (trimPrefixRow field prefix_field r).bind
        (fun r1 => if post then trimWhitespaceRow field r1 else some r1)) df := by
  cases post with
  | false =>
      have hfun : (fun r => (trimPrefixRow field prefix_field r).bind
          (fun r1 => if (false : Bool) then trimWhitespaceRow field r1 else some r1)) =
          trimPrefixRow field prefix_field := by
        funext r
        simp
      rw [ trim_prefix, hfun]
      cases hmr : mapRows (trimPrefixRow field prefix_field) df <;> simp
  | true =>
      rw [ trim_prefix, ← mapRows_mapRows]
      have hfun : (fun r1 => if (true : Bool) then trimWhitespaceRow field r1
          else some r1) = trimWhitespaceRow field := by
        funext r1
        simp
      rw [hfun]
      cases hmr : mapRows (trimPrefixRow field prefix_field) df with
      | none => rfl
      | some df1 => simp [trim_whitespace]

/-- C9: for every `trim_prefix` call that completes, each row's field value
loses the leading substring exactly equal to that row's prefix value (the
decomposition `s = p ++ t` yields `t`), is left as it was when the prefix
value is not a prefix of it, and is whitespace-trimmed afterward exactly
when `post_trim_whitespace` is set; the spec example evaluates as stated. -/
theorem trim_prefix_correct (df df' : List Doc) (field prefix_field : String)
    (post : Bool) (h : trim_prefix df field prefix_field post = some df') :
    List.Forall₂ (fun r r' => ∀ s p,
        getField r field = some (Val.vStr s) →
        getField r prefix_field = some (Val.vStr p) →
        (∀ t, s = p ++ t →
          getField r' field = some (Val.vStr (applyPostTrim post t))) ∧
        ((∀ t, s ≠ p ++ t) →
          getField r' field = some (Val.vStr (applyPostTrim post s))))
      df df' ∧
    trim_prefix
        [[("product_name", Val.vStr "BrandX Bike 100"),
          ("brand_name", Val.vStr "BrandX")]] "product_name" "brand_name" true =
      some [[("product_name", Val.vStr "Bike 100"),
        ("brand_name", Val.vStr "BrandX")]] := by
  refine ⟨?_, by decide⟩
  rw [trim_prefix_eq] at h
  have hall := mapRows_forall2 _ _ _ h
  refine List.Forall₂.imp ?_ hall
  intro r r' hr s p hs hp
  rw [trimPrefixRow, hs, hp] at hr
  have hkey : getField r' field =
      some (Val.vStr (applyPostTrim post (strDropPrefix p s))) := by
    cases hpost : post with
    | false =>
        rw [hpost] at hr
        simp only [Option.some_bind, Bool.false_eq_true, if_false,
          Option.some.injEq] at hr
        subst hr
        simp [applyPostTrim, getField_setField_self]
    | true =>
        rw [hpost] at hr
        simp only [Option.some_bind, if_true] at hr
        rw [trimWhitespaceRow, getField_setField_self] at hr
        simp only [Option.some.injEq] at hr
        subst hr
        rw [setField_setField]
        simp [applyPostTrim, getField_setField_self]
  constructor
  · intro t ht
    rw [hkey, ht, strDropPrefix_append]
  · intro hno
    rw [hkey, strDropPrefix_of_no_prefix p s hno]

/-- Concrete instantiation of `trim_prefix_correct` on the spec's example
table. -/
theorem trim_prefix_correct_witness :
    trim_prefix
        [[("product_name", Val.vStr "BrandX Bike 100"),
          ("brand_name", Val.vStr "BrandX")]] "product_name" "brand_name" true =
      some [[("product_name", Val.vStr "Bike 100"),
        ("brand_name", Val.vStr "BrandX")]] ∧
    (List.Forall₂ (fun r r' => ∀ s p,
        getField r "product_name" = some (Val.vStr s) →
        getField r "brand_name" = some (Val.vStr p) →
        (∀ t, s = p ++ t →
          getField r' "product_name" = some (Val.vStr (applyPostTrim true t))) ∧
        ((∀ t, s ≠ p ++ t) →
          getField r' "product_name" = some (Val.vStr (applyPostTrim true s))))
      [[("product_name", Val.vStr "BrandX Bike 100"),
        ("brand_name", Val.vStr "BrandX")]]
      [[("product_name", Val.vStr "Bike 100"),
        ("brand_name", Val.vStr "BrandX")]] ∧
      trim_prefix
        [[("product_name", Val.vStr "BrandX Bike 100"),
          ("brand_name", Val.vStr "BrandX")]] "product_name" "brand_name" true =
      some [[("product_name", Val.vStr "Bike 100"),
        ("brand_name", Val.vStr "BrandX")]]) :=
  ⟨by decide,
   trim_prefix_correct
     [[("product_name", Val.vStr "BrandX Bike 100"),
       ("brand_name", Val.vStr "BrandX")]]
     [[("product_name", Val.vStr "Bike 100"),
       ("brand_name", Val.vStr "BrandX")]]
     "product_name" "brand_name" true (by decide)⟩

-- replace_with_suffix -------------------------------------------------------

theorem filterMap_id_map_some {α : Type} (l : List α) :
    (l.map some).filterMap id = l := by
  induction l with
  | nil => rfl
  | cons x rest ih => simp [ih]

/-- Shifting the split list and joining with nulls ignored is exactly
"all segments but the last, rejoined with the delimiter". -/
theorem listJoin_listShift (delim : String) (l : List String) :
    listJoin delim (listShift (l.map some)) =
      String.intercalate delim l.dropLast := by
  rw [listShift, listJoin, ← List.map_dropLast]
  congr 1
  rw [List.filterMap_cons_none]
  · exact filterMap_id_map_some _
  · rfl

theorem replaceWithSuffixRow_eq (field suffix_field delim : String) (r : Doc)
    (s : String) (sv : Val)
    (hs : getField r field = some (Val.vStr s))
    (hsv : getField r suffix_field = some sv) :
    replaceWithSuffixRow field suffix_field delim r =
      match (strSplitOn s delim).getLast? with
      | some suf =>
          some (setField (setField (setField r suffix_field (castString sv)) field
            (Val.vStr (listJoin delim (listShift ((strSplitOn s delim).map some)))))
            suffix_field (Val.vStr suf))
      | none => none := by
  rw [replaceWithSuffixRow, hs, hsv]

theorem replace_with_suffix_eq (df : List Doc)
    (field suffix_field delim : String) (post : Bool) :
    replace_with_suffix df field suffix_field delim post =
      mapRows (fun r => (replaceWithSuffixRow field suffix_field delim r).bind
        (fun r1 => if post then
            (trimWhitespaceRow field r1).bind (trimWhitespaceRow suffix_field)
          else some r1)) df := by
  cases post with
  | false =>
      have hfun : (fun r => (replaceWithSuffixRow field suffix_field delim r).bind
          (fun r1 => if (false : Bool) then
              (trimWhitespaceRow field r1).bind (trimWhitespaceRow suffix_field)
            else some r1)) = replaceWithSuffixRow field suffix_field delim := by
        funext r
        simp
      rw [replace_with_suffix, hfun]
      cases hmr : mapRows (replaceWithSuffixRow field suffix_field delim) df <;> simp
  | true =>
      have hfun : (fun r1 => if (true : Bool) then
          (trimWhitespaceRow field r1).bind (trimWhitespaceRow suffix_field)
        else some r1) = (fun r1 =>
          (trimWhitespaceRow field r1).bind (trimWhitespaceRow suffix_field)) := by
        funext r1
        simp
      rw [replace_with_suffix, hfun, ← mapRows_mapRows]
      cases hmr : mapRows (replaceWithSuffixRow field suffix_field delim) df with
      | none => rfl
      | some df1 =>
          simp only [Option.some_bind]
          rw [← mapRows_mapRows]
          rw [show trim_whitespace df1 field =
            mapRows (trimWhitespaceRow field) df1 from rfl]
          cases hm2 : mapRows (trimWhitespaceRow field) df1 with
          | none => rfl
          | some df2 => rfl

/-- C2: for every `replace_with_suffix` call that completes (field and
suffix columns distinct, as MongoDB/polars require), each row's field value
is split on the delimiter: the segments before the last one, rejoined with
the delimiter, become the field value and the last segment becomes the
suffix value (post-trimmed when requested); a delimiter-free value makes
the field empty and the whole value the suffix; the two spec examples
evaluate as stated. -/
theorem replace_with_suffix_correct (df df' : List Doc)
    (field suffix_field delim : String) (post : Bool)
    (hne : field ≠ suffix_field)
    (h : replace_with_suffix df field suffix_field delim post = some df') :
    List.Forall₂ (fun r r' => ∀ s,
        getField r field = some (Val.vStr s) →
        getField r' field = some (Val.vStr (applyPostTrim post
          (String.intercalate delim (strSplitOn s delim).dropLast))) ∧
        getField r' suffix_field = some (Val.vStr (applyPostTrim post
          ((strSplitOn s delim).getLast?.getD ""))) ∧
        (strSplitOn s delim = [s] →
          getField r' field = some (Val.vStr "") ∧
          getField r' suffix_field = some (Val.vStr (applyPostTrim post s))))
      df df' ∧
    replace_with_suffix
        [[("product_name", Val.vStr "Bike-2015"), ("model_year", Val.vInt 2016)]]
        "product_name" "model_year" "-" true =
      some [[("product_name", Val.vStr "Bike"), ("model_year", Val.vStr "2015")]] ∧
    replace_with_suffix
        [[("product_name", Val.vStr "Bike-2015-2016"), ("model_year", Val.vInt 0)]]
        "product_name" "model_year" "-" true =
      some [[("product_name", Val.vStr "Bike-2015"),
        ("model_year", Val.vStr "2016")]] := by
  refine ⟨?_, by decide, by decide⟩
  rw [replace_with_suffix_eq] at h
  have hall := mapRows_forall2 _ _ _ h
  refine List.Forall₂.imp ?_ hall
  intro r r' hr s hs
  cases hsv : getField r suffix_field with
  | none =>
      rw [replaceWithSuffixRow, hs, hsv] at hr
      cases hr
  | some sv =>
      rw [replaceWithSuffixRow_eq field suffix_field delim r s sv hs hsv] at hr
      cases hlast : (strSplitOn s delim).getLast? with
      | none => rw [hlast] at hr; simp at hr
      | some suf =>
          rw [hlast] at hr
          have hjoin : listJoin delim (listShift ((strSplitOn s delim).map some)) =
              String.intercalate delim (strSplitOn s delim).dropLast :=
            listJoin_listShift delim (strSplitOn s delim)
          rw [hjoin] at hr
          have hkey : getField r' field = some (Val.vStr (applyPostTrim post
              (String.intercalate delim (strSplitOn s delim).dropLast))) ∧
              getField r' suffix_field =
                some (Val.vStr (applyPostTrim post suf)) := by
            cases hpost : post with
            | false =>
                rw [hpost] at hr
                simp only [Option.some_bind, Bool.false_eq_true, if_false,
                  Option.some.injEq] at hr
                subst hr
                constructor
                · rw [getField_setField_other _ _ _ _ hne,
                    getField_setField_self]
                  rfl
                · rw [getField_setField_self]
                  rfl
            | true =>
                rw [hpost] at hr
                simp only [Option.some_bind, if_true] at hr
                rw [trimWhitespaceRow] at hr
                rw [getField_setField_other _ _ _ _ hne,
                  getField_setField_self] at hr
                simp only [Option.some_bind] at hr
                rw [trimWhitespaceRow] at hr
                rw [getField_setField_other _ _ _ _ (Ne.symm hne),
                  getField_setField_self] at hr
                simp only [Option.some.injEq] at hr
                subst hr
                constructor
                · rw [getField_setField_other _ _ _ _ hne,
                    getField_setField_self]
                  rfl
                · rw [getField_setField_self]
                  rfl
          refine ⟨hkey.1, ?_, ?_⟩
          · exact hkey.2
          · intro hsingle
            rw [hsingle] at hlast
            simp only [List.getLast?_singleton, Option.some.injEq] at hlast
            constructor
            · rw [hkey.1, hsingle]
              have : applyPostTrim post (String.intercalate delim
                  ([s] : List String).dropLast) = "" := by
                cases post <;> rfl
              rw [this]
            · rw [hkey.2, hlast]

/-- Concrete instantiation of `replace_with_suffix_correct` on the spec's
first example table. -/
theorem replace_with_suffix_correct_witness :
    (("product_name" : String) ≠ "model_year" ∧
      replace_with_suffix
        [[("product_name", Val.vStr "Bike-2015"), ("model_year", Val.vInt 2016)]]
        "product_name" "model_year" "-" true =
      some [[("product_name", Val.vStr "Bike"),
        ("model_year", Val.vStr "2015")]]) ∧
    (List.Forall₂ (fun r r' => ∀ s,
        getField r "product_name" = some (Val.vStr s) →
        getField r' "product_name" = some (Val.vStr (applyPostTrim true
          (String.intercalate "-" (strSplitOn s "-").dropLast))) ∧
        getField r' "model_year" = some (Val.vStr (applyPostTrim true
          ((strSplitOn s "-").getLast?.getD ""))) ∧
        (strSplitOn s "-" = [s] →
          getField r' "product_name" = some (Val.vStr "") ∧
          getField r' "model_year" = some (Val.vStr (applyPostTrim true s))))
      [[("product_name", Val.vStr "Bike-2015"), ("model_year", Val.vInt 2016)]]
      [[("product_name", Val.vStr "Bike"), ("model_year", Val.vStr "2015")]] ∧
    replace_with_suffix
        [[("product_name", Val.vStr "Bike-2015"), ("model_year", Val.vInt 2016)]]
        "product_name" "model_year" "-" true =
      some [[("product_name", Val.vStr "Bike"), ("model_year", Val.vStr "2015")]] ∧
    replace_with_suffix
        [[("product_name", Val.vStr "Bike-2015-2016"), ("model_year", Val.vInt 0)]]
        "product_name" "model_year" "-" true =
      some [[("product_name", Val.vStr "Bike-2015"),
        ("model_year", Val.vStr "2016")]]) :=
  ⟨⟨by decide, by decide⟩,
   replace_with_suffix_correct
     [[("product_name", Val.vStr "Bike-2015"), ("model_year", Val.vInt 2016)]]
     [[("product_name", Val.vStr "Bike"), ("model_year", Val.vStr "2015")]]
     "product_name" "model_year" "-" true (by decide) (by decide)⟩

-- add_id --------------------------------------------------------------------

/-- C5 counterexample: `with_row_index` inserts the id column as the FIRST
column, so the result is not the input with the id column appended. -/
theorem add_id_not_appended :
    add_id [[("a", Val.vStr "x")]] "id" ≠ [[("a", Val.vStr "x"), ("id", Val.vInt 0)]] := by
  decide

/-- C5 (amended): `add_id` returns the table with a new integer column
named `id_name` inserted as the first column, holding each row's zero-based
position at the time of the call; over any 3-row table the ids are
[0, 1, 2] in current row order. -/
theorem add_id_correct (df : List Doc) (id_name : String) :
    (add_id df id_name).length = df.length ∧
    (∀ i (hi2 : i < df.length) (hi3 : i < (add_id df id_name).length),
      (add_id df id_name).get ⟨i, hi3⟩ = (id_name, Val.vInt i) :: df.get ⟨i, hi2⟩) ∧
    (add_id df id_name).map (fun r => getField r id_name) =
      (List.range df.length).map (fun i : Nat => some (Val.vInt i)) ∧
    (∀ r1 r2 r3 : Doc, (add_id [r1, r2, r3] id_name).map (fun r => getField r id_name) =
      [some (Val.vInt 0), some (Val.vInt 1), some (Val.vInt 2)]) := by
  have hlen : (add_id df id_name).length = df.length := by
    rw [add_id, List.length_mapIdx]
  have hget : ∀ i (hi2 : i < df.length) (hi3 : i < (add_id df id_name).length),
      (add_id df id_name).get ⟨i, hi3⟩ = (id_name, Val.vInt i) :: df.get ⟨i, hi2⟩ := by
    intro i hi2 hi3
    exact List.get_mapIdx df (fun i r => (id_name, Val.vInt i) :: r) i hi2 hi3
  have hmap : ∀ (l : List Doc) (n : String),
      (l.mapIdx (fun i r => (n, Val.vInt i) :: r)).map (fun r => getField r n) =
        (List.range l.length).map (fun i : Nat => some (Val.vInt i)) := by
    intro l n
    apply List.ext_getElem
    · simp only [List.length_map, List.length_mapIdx, List.length_range]
    · intro i h1 h2
      rw [List.getElem_map, List.getElem_map, List.getElem_mapIdx, List.getElem_range]
      simp [getField]
  refine ⟨hlen, hget, hmap df id_name, ?_⟩
  intro r1 r2 r3
  exact hmap [r1, r2, r3] id_name

-- Store adapter (database.py) -----------------------------------------------

/-!
`MongoDB.write_polars` / `read_polars`.  The store assigns an `_id` to each
inserted document (modelled by a counter); `insert_many` of an empty list
raises (`pymongo` rejects an empty bulk insert), and `pl.from_dicts` of an
empty cursor raises (cannot infer a schema), both modelled as errors.
-/

/-- The store: named collections plus the next fresh `_id`. -/
structure StoreState where
  colls : DB
  nextId : Nat
deriving DecidableEq, Repr

/-- `collection.drop()`: remove the collection entirely. -/
def dropCollection (db : DB) (c : String) : DB :=
  db.filter (fun p => p.1 ≠ c)

/-- Replace (or create) the contents of a named collection. -/
def setColl (db : DB) (c : String) (docs : Collection) : DB :=
  match db with
  | [] => [(c, docs)]
  | (n, ds) :: rest =>
      if n = c then (c, docs) :: rest else (n, ds) :: setColl rest c docs

/-- `insert_many` id assignment: a document without `_id` gets the next
fresh one appended; a document carrying its own `_id` keeps it. -/
def assignIds : List Doc → Nat → List Doc × Nat
  | [], n => ([], n)
  | d :: rest, n =>
      if (getField d "_id").isSome then
        let (ds, n') := assignIds rest n
        (d :: ds, n')
      else
        let (ds, n') := assignIds rest (n + 1)
        ((d ++ [("_id", Val.vInt n)]) :: ds, n')

/-- `MongoDB.write_polars` (`database.py`): when `overwrite` is set, drop
the collection first; then bulk-insert the rows.  The returned option is
the raised error, if any: inserting zero documents raises after the drop
has already happened. -/
def write_polars (st : StoreState) (df : List Doc) (collection : String)
    (overwrite : Bool := false) : StoreState × Option String :=
  let st1 : StoreState :=
    if overwrite then { st with colls := dropCollection st.colls collection } else st
  if df.isEmpty then
    (st1, some "InvalidOperation: documents must be a non-empty list")
  else
    let (docs, n') := assignIds df st1.nextId
    ({ colls := setColl st1.colls collection (getColl st1.colls collection ++ docs),
       nextId := n' }, none)

/-- `MongoDB.read_polars` (`database.py`): read all documents of the
collection into a dataframe; an empty cursor makes `pl.from_dicts` raise
(no schema), modelled as `none`. -/
def read_polars (st : StoreState) (collection : String) : Option (List Doc) :=
  let docs := getColl st.colls collection
  if docs.isEmpty then none else some docs

-- Store lemmas ---------------------------------------------------------------

theorem getColl_setColl_self (db : DB) (c : String) (docs : Collection) :
    getColl (setColl db c docs) c = docs := by
  induction db with
  | nil => simp [setColl, getColl]
  | cons p rest ih =>
      obtain ⟨n, ds⟩ := p
      by_cases hn : n = c
      · simp [setColl, hn, getColl]
      · simp [setColl, hn, getColl, ih]

theorem getColl_dropCollection_self (db : DB) (c : String) :
    getColl (dropCollection db c) c = [] := by
  induction db with
  | nil => rfl
  | cons p rest ih =>
      obtain ⟨n, ds⟩ := p
      by_cases hn : n = c
      · simpa [dropCollection, List.filter_cons, hn] using ih
      · simpa [dropCollection, List.filter_cons, hn, getColl] using ih

theorem getField_none_no_key (d : Doc) (f : String) (h : getField d f = none) :
    ∀ p ∈ d, p.1 ≠ f := by
  induction d with
  | nil => intro p hp; cases hp
  | cons q rest ih =>
      obtain ⟨k, v⟩ := q
      intro p hp
      by_cases hk : k = f
      · rw [getField, if_pos hk] at h
        cases h
      · rw [getField, if_neg hk] at h
        rcases List.mem_cons.mp hp with heq | hmem
        · subst heq; exact hk
        · exact ih h p hmem

theorem unsetField_of_getField_none (d : Doc) (f : String)
    (h : getField d f = none) : unsetField d f = d := by
  rw [unsetField, List.filter_eq_self.mpr]
  intro p hp
  simpa using getField_none_no_key d f h p hp

theorem unsetField_append_id (d : Doc) (v : Val) (h : getField d "_id" = none) :
    unsetField (d ++ [("_id", v)]) "_id" = d := by
  rw [unsetField, List.filter_append]
  rw [List.filter_eq_self.mpr]
  · simp
  · intro p hp
    simpa using getField_none_no_key d "_id" h p hp

theorem assignIds_erase (df : List Doc) (n : Nat) :
    ((assignIds df n).1).map (fun r => unsetField r "_id") =
      df.map (fun r => unsetField r "_id") := by
  induction df generalizing n with
  | nil => rfl
  | cons d rest ih =>
      rw [assignIds]
      by_cases hd : (getField d "_id").isSome
      · rw [if_pos hd]
        cases hrec : assignIds rest n with
        | mk ds n' =>
            have := ih n
            rw [hrec] at this
            simpa using this
      · rw [if_neg hd]
        have hdnone : getField d "_id" = none := Option.not_isSome_iff_eq_none.mp hd
        cases hrec : assignIds rest (n + 1) with
        | mk ds n' =>
            have := ih (n + 1)
            rw [hrec] at this
            simp only [List.map_cons]
            rw [unsetField_append_id d (Val.vInt n) hdnone,
              unsetField_of_getField_none d _ hdnone]
            simpa using this

theorem assignIds_length (df : List Doc) (n : Nat) :
    ((assignIds df n).1).length = df.length := by
  induction df generalizing n with
  | nil => rfl
  | cons d rest ih =>
      rw [assignIds]
      by_cases hd : (getField d "_id").isSome
      · rw [if_pos hd]
        cases hrec : assignIds rest n with
        | mk ds n' => simpa [hrec] using ih n
      · rw [if_neg hd]
        cases hrec : assignIds rest (n + 1) with
        | mk ds n' => simpa [hrec] using ih (n + 1)

/-- C8 counterexample: the round trip is not "for every table" — for the
empty table, `write_polars` with overwrite raises after dropping, so the
claimed write-then-read round trip does not hold at the empty table. -/
theorem write_read_roundtrip_fails_empty :
    ¬ ((write_polars ⟨[("products", [[("a", Val.vStr "x")]])], 0⟩
          [] "products" true).2 = none) := by
  decide

/-- C8 (amended): for every NONEMPTY table, writing with overwrite=true
succeeds and reading back yields a table whose rows — after removing the
`_id` column on both sides, since the store assigns one — form the same
multiset (here even the same list) as the original; overwrite=true leaves
exactly the newly inserted rows (prior contents dropped), and
overwrite=false appends the newly inserted rows to the existing
contents. -/
theorem write_read_roundtrip (st : StoreState) (df : List Doc) (c : String)
    (hne : df ≠ []) :
    ∃ st' rows, write_polars st df c true = (st', none) ∧
      read_polars st' c = some rows ∧
      (rows.map (fun r => unsetField r "_id")).Perm
        (df.map (fun r => unsetField r "_id")) ∧
      getColl st'.colls c = (assignIds df st.nextId).1 ∧
      getColl (write_polars st df c false).1.colls c =
        getColl st.colls c ++ (assignIds df st.nextId).1 := by
  have hempty : df.isEmpty = false := by
    cases df with
    | nil => exact absurd rfl hne
    | cons d rest => rfl
  have herase : ((assignIds df st.nextId).1).map (fun r => unsetField r "_id") =
      df.map (fun r => unsetField r "_id") :=
    assignIds_erase df st.nextId
  have hlen : ((assignIds df st.nextId).1).length = df.length :=
    assignIds_length df st.nextId
  cases hai : assignIds df st.nextId with
  | mk docs n' =>
      rw [hai] at herase hlen
      have hw : write_polars st df c true =
          ({ colls := setColl (dropCollection st.colls c) c
              (getColl (dropCollection st.colls c) c ++ docs), nextId := n' }, none) := by
        simp [write_polars, hempty, hai]
      have hwf : getColl (write_polars st df c false).1.colls c =
          getColl st.colls c ++ docs := by
        simp [write_polars, hempty, hai, getColl_setColl_self]
      have hdocs_ne : docs.isEmpty = false := by
        cases docs with
        | nil =>
            exfalso
            exact hne (List.eq_nil_of_length_eq_zero hlen.symm)
        | cons a l => rfl
      refine ⟨_, docs, hw, ?_, ?_, ?_, ?_⟩
      · rw [read_polars]
        simp only [getColl_setColl_self, getColl_dropCollection_self, List.nil_append]
        rw [if_neg (by simp [hdocs_ne])]
      · rw [herase]
      · simp [getColl_setColl_self, getColl_dropCollection_self]
      · exact hwf

/-- Concrete instantiation of `write_read_roundtrip` on a one-row table. -/
theorem write_read_roundtrip_witness :
    (([[("a", Val.vStr "x")]] : List Doc) ≠ []) ∧
    (∃ st' rows,
      write_polars ⟨[("products", [[("old", Val.vInt 7)]])], 0⟩
          [[("a", Val.vStr "x")]] "products" true = (st', none) ∧
      read_polars st' "products" = some rows ∧
      (rows.map (fun r => unsetField r "_id")).Perm
        (([[("a", Val.vStr "x")]] : List Doc).map (fun r => unsetField r "_id")) ∧
      getColl st'.colls "products" =
        (assignIds [[("a", Val.vStr "x")]] 0).1 ∧
      getColl (write_polars ⟨[("products", [[("old", Val.vInt 7)]])], 0⟩
          [[("a", Val.vStr "x")]] "products" false).1.colls "products" =
        getColl ([("products", [[("old", Val.vInt 7)]])] : DB) "products" ++
          (assignIds [[("a", Val.vStr "x")]] 0).1) :=
  ⟨by decide,
   write_read_roundtrip ⟨[("products", [[("old", Val.vInt 7)]])], 0⟩
     [[("a", Val.vStr "x")]] "products" (by decide)⟩

/-- C10: writing an empty table with overwrite=true first drops the
existing collection contents and then fails on the empty bulk insert,
leaving the collection empty rather than unchanged — the operation is not
atomic and rejects empty input. -/
theorem write_empty_overwrite_fails (st : StoreState) (c : String) :
    (write_polars st [] c true).2.isSome ∧
    (write_polars st [] c true).1.colls = dropCollection st.colls c ∧
    getColl (write_polars st [] c true).1.colls c = [] := by
  refine ⟨?_, ?_, ?_⟩
  · rw [write_polars]
    rfl
  · rw [write_polars]
    rfl
  · rw [write_polars]
    exact getColl_dropCollection_self st.colls c

-- Store connection lifecycle (database.py, MongoDB.__enter__ / __exit__) ----

/-- A Python exception as seen by `__exit__`: type, value, traceback. -/
structure PyExc where
  excType : String
  excValue : String
  traceback : String
deriving DecidableEq, Repr

/-- The state of the store connection object. -/
structure MongoConn where
  clientOpen : Bool
deriving DecidableEq, Repr

/-- `MongoDB.__enter__`: create the client and select the database. -/
def mongoEnter : MongoConn := { clientOpen := true }

/-- `MongoDB.__exit__`: print the exception when one arrived; perform no
close; implicitly return `None`.  Result: (printed lines, truthiness of the
return value — `None` is falsy, so the exception is never suppressed). -/
def mongoExit (exc : Option PyExc) : List String × Bool :=
  match exc with
  | some e => ([e.excType ++ ": " ++ e.excValue ++ "\n" ++ e.traceback], false)
  | none => ([], false)

/-- Python `with MongoDB(...) as db:` semantics specialised to this class:
run the body against the entered connection; on an exception call
`__exit__` and re-raise unless its return value is truthy.  Result:
(outcome, printed log, final connection state). -/
def withMongo (body : MongoConn → Except PyExc Unit) :
    Except PyExc Unit × List String × MongoConn :=
  let conn := mongoEnter
  match body conn with
  | Except.ok _ =>
      let (log, _) := mongoExit none
      (Except.ok (), log, conn)
  | Except.error e =>
      let (log, suppress) := mongoExit (some e)
      (if suppress then Except.ok () else Except.error e, log, conn)

/-- C7 counterexample: with a body that raises, the exception IS rethrown
to the caller (the `with` statement returns it as an error, since
`__exit__` returns a falsy `None`), and the connection is not released
(no close is ever called: the client is still open after exit). -/
theorem withMongo_rethrows_and_never_closes :
    (withMongo (fun _ => Except.error ⟨"ValueError", "boom", "tb"⟩)).1 =
        Except.error ⟨"ValueError", "boom", "tb"⟩ ∧
      (withMongo (fun _ => Except.error ⟨"ValueError", "boom", "tb"⟩)).2.2.clientOpen
        = true ∧
      ¬ ((withMongo (fun _ => Except.error ⟨"ValueError", "boom", "tb"⟩)).1 =
          Except.ok () ∧
        (withMongo (fun _ => Except.error ⟨"ValueError", "boom", "tb"⟩)).2.2.clientOpen
          = false) := by
  refine ⟨rfl, rfl, ?_⟩
  intro hcontra
  cases hcontra.1

/-- C7 (amended): the connection is acquired once on entering the scope;
on a failing body the exit handler prints the exception in the
`f"{type}: {value}\n{traceback}"` format but, returning the falsy `None`,
re-raises it to the caller; no exit path performs an explicit release —
the connection object leaves the scope exactly as entered, still open. -/
theorem withMongo_correct (body : MongoConn → Except PyExc Unit) :
    (withMongo body).2.2 = mongoEnter ∧
    (withMongo body).2.2.clientOpen = true ∧
    (∀ e, body mongoEnter = Except.error e →
      (withMongo body).1 = Except.error e ∧
      (withMongo body).2.1 =
        [e.excType ++ ": " ++ e.excValue ++ "\n" ++ e.traceback]) ∧
    (body mongoEnter = Except.ok () →
      (withMongo body).1 = Except.ok () ∧ (withMongo body).2.1 = []) := by
  refine ⟨?_, ?_, ?_, ?_⟩
  · rw [withMongo]
    cases body mongoEnter <;> rfl
  · rw [withMongo]
    cases body mongoEnter <;> rfl
  · intro e he
    rw [withMongo, he]
    exact ⟨rfl, rfl⟩
  · intro hok
    rw [withMongo, hok]
    exact ⟨rfl, rfl⟩

/-- Concrete instantiation of `withMongo_correct` on a raising body: the
connection leaves the scope still open, the exception is re-raised, and
the log holds the one formatted line. -/
theorem withMongo_correct_witness :
    (withMongo (fun _ => Except.error ⟨"TypeError", "bad", "tb2"⟩)).2.2 =
        mongoEnter ∧
      (withMongo (fun _ => Except.error ⟨"TypeError", "bad", "tb2"⟩)).1 =
        Except.error ⟨"TypeError", "bad", "tb2"⟩ ∧
      (withMongo (fun _ => Except.error ⟨"TypeError", "bad", "tb2"⟩)).2.1 =
        ["TypeError: bad\ntb2"] :=
  ⟨(withMongo_correct (fun _ => Except.error ⟨"TypeError", "bad", "tb2"⟩)).1,
   ((withMongo_correct (fun _ => Except.error ⟨"TypeError", "bad", "tb2"⟩)).2.2.1
      ⟨"TypeError", "bad", "tb2"⟩ rfl).1,
   ((withMongo_correct (fun _ => Except.error ⟨"TypeError", "bad", "tb2"⟩)).2.2.1
      ⟨"TypeError", "bad", "tb2"⟩ rfl).2⟩
